import Mathlib

/-!
Verification of the `pgo-analysis` tool (src/main.go), a one-shot batch
transform that parses the Go compiler's `-d=pgodebug=3` log, aggregates
categorized call-site statistics, and prints a ranked top-K listing of
hottest indirect calls.

The shallow embedding below translates the Go code directly:

* `CallStat` mirrors the Go struct of the same name (machine `int64`
  weights are modelled as `Int`; none of the verified claims depends on
  64-bit wraparound, which would only be reachable on astronomically
  long inputs).
* The aggregation loop of `run` (src/main.go lines 140-162) becomes
  `aggStep` / `aggregate`.
* `normalizePos` (lines 77-82) is parameterized by the working
  directory `cwd` that the Go program captures once at startup from
  `os.Getwd` (which on the target platform always yields an absolute,
  `/`-rooted path); `filepath.Join` / `filepath.Clean` are modelled for
  Unix path semantics.
* `readStats` (lines 84-110) consumes a list of input lines, each
  carrying its raw text (matched against the inlining regexp) together
  with the result of the `encoding/json` syntax parse of that same text
  (`none` when the line is not valid JSON); struct decoding into
  `CallStat` is modelled by `unmarshalCallStat`.  A stream read fault
  (`scanner.Err()`) is modelled by an optional error value checked
  after the lines are consumed, exactly as in the Go code.
* The ranking comparator passed to `sort.Slice` (lines 189-197) becomes
  `statLess`; the sort itself is modelled by a stable insertion sort
  (`sortBy`): `sort.Slice` is unspecified on tied keys, and no verified
  claim depends on the order of records with identical 3-key rank.
* The top-K walk (lines 198-225) becomes `selectTop` / `topListing`,
  and `run` assembles the report data (`Report`).
-/

/-- Mirrors the Go struct `CallStat` (src/main.go lines 43-65). -/
structure CallStat where
  Pkg : String
  Pos : String
  Caller : String
  Direct : Bool
  Interface : Bool
  Weight : Int
  Hottest : String
  HottestWeight : Int
  Devirtualized : String
  DevirtualizedWeight : Int
deriving DecidableEq, Repr

/-- The zero value of `CallStat`, as produced by Go for a freshly
declared `var stat CallStat` before `json.Unmarshal` fills fields in. -/
def CallStat.zero : CallStat :=
  { Pkg := "", Pos := "", Caller := "", Direct := false, Interface := false,
    Weight := 0, Hottest := "", HottestWeight := 0,
    Devirtualized := "", DevirtualizedWeight := 0 }

/-- Mirrors the Go struct `sum` (src/main.go lines 112-116): one
accumulator per call category. -/
structure sum where
  direct : Int
  indirectFunc : Int
  indirectMethod : Int
deriving DecidableEq, Repr

/-- Mirrors `(*sum).total` (src/main.go lines 118-120). -/
def sum.total (s : sum) : Int :=
  s.direct + s.indirectFunc + s.indirectMethod

def sum.zero : sum := ⟨0, 0, 0⟩

/-- The five accumulators declared at src/main.go lines 132-138. -/
structure Agg where
  count : sum
  weight : sum
  hottestWeight : sum
  devirtualizedCount : sum
  devirtualizedWeight : sum
deriving DecidableEq, Repr

def Agg.zero : Agg := ⟨sum.zero, sum.zero, sum.zero, sum.zero, sum.zero⟩

/-- One iteration of the aggregation loop of `run`
(src/main.go lines 140-162), transcribed branch by branch.  Note that
the direct branch adds `s.Weight` — not `s.HottestWeight` — to
`hottestWeight.direct`, exactly as line 144 of the source does. -/
def aggStep (a : Agg) (s : CallStat) : Agg :=
  if s.Direct then
    { a with
      count := { a.count with direct := a.count.direct + 1 },
      weight := { a.weight with direct := a.weight.direct + s.Weight },
      hottestWeight := { a.hottestWeight with direct := a.hottestWeight.direct + s.Weight } }
  else if s.Interface then
    let a :=
      { a with
        count := { a.count with indirectMethod := a.count.indirectMethod + 1 },
        weight := { a.weight with indirectMethod := a.weight.indirectMethod + s.Weight },
        hottestWeight := { a.hottestWeight with indirectMethod := a.hottestWeight.indirectMethod + s.HottestWeight } }
    if s.Devirtualized ≠ "" then
      { a with
        devirtualizedCount := { a.devirtualizedCount with indirectMethod := a.devirtualizedCount.indirectMethod + 1 },
        devirtualizedWeight := { a.devirtualizedWeight with indirectMethod := a.devirtualizedWeight.indirectMethod + s.DevirtualizedWeight } }
    else a
  else
    let a :=
      { a with
        count := { a.count with indirectFunc := a.count.indirectFunc + 1 },
        weight := { a.weight with indirectFunc := a.weight.indirectFunc + s.Weight },
        hottestWeight := { a.hottestWeight with indirectFunc := a.hottestWeight.indirectFunc + s.HottestWeight } }
    if s.Devirtualized ≠ "" then
      { a with
        devirtualizedCount := { a.devirtualizedCount with indirectFunc := a.devirtualizedCount.indirectFunc + 1 },
        devirtualizedWeight := { a.devirtualizedWeight with indirectFunc := a.devirtualizedWeight.indirectFunc + s.DevirtualizedWeight } }
    else a

/-- The full aggregation pass of `run` over the parsed record list,
starting from the zero-valued accumulators. -/
def aggregate (stats : List CallStat) : Agg :=
  stats.foldl aggStep Agg.zero

/-- Componentwise addition of `sum`. -/
def sum.add (x y : sum) : sum :=
  ⟨x.direct + y.direct, x.indirectFunc + y.indirectFunc, x.indirectMethod + y.indirectMethod⟩

/-- Componentwise addition of `Agg`. -/
def Agg.add (x y : Agg) : Agg :=
  ⟨x.count.add y.count, x.weight.add y.weight, x.hottestWeight.add y.hottestWeight,
   x.devirtualizedCount.add y.devirtualizedCount, x.devirtualizedWeight.add y.devirtualizedWeight⟩

/-- The contribution of a single record to the accumulators. -/
def contrib (s : CallStat) : Agg :=
  if s.Direct then
    ⟨⟨1, 0, 0⟩, ⟨s.Weight, 0, 0⟩, ⟨s.Weight, 0, 0⟩, sum.zero, sum.zero⟩
  else if s.Interface then
    ⟨⟨0, 0, 1⟩, ⟨0, 0, s.Weight⟩, ⟨0, 0, s.HottestWeight⟩,
     (if s.Devirtualized ≠ "" then ⟨0, 0, 1⟩ else sum.zero),
     (if s.Devirtualized ≠ "" then ⟨0, 0, s.DevirtualizedWeight⟩ else sum.zero)⟩
  else
    ⟨⟨0, 1, 0⟩, ⟨0, s.Weight, 0⟩, ⟨0, s.HottestWeight, 0⟩,
     (if s.Devirtualized ≠ "" then ⟨0, 1, 0⟩ else sum.zero),
     (if s.Devirtualized ≠ "" then ⟨0, s.DevirtualizedWeight, 0⟩ else sum.zero)⟩

/-- Sum of the contributions of a record list. -/
def aggSum (stats : List CallStat) : Agg :=
  (stats.map contrib).foldr Agg.add Agg.zero

/-- A direct-call record whose total weight (10) differs from its
hottest-callee weight (3). -/
def c1rec : CallStat :=
  { Pkg := "p", Pos := "a.go:1:1", Caller := "f", Direct := true, Interface := false,
    Weight := 10, Hottest := "g", HottestWeight := 3,
    Devirtualized := "", DevirtualizedWeight := 0 }

/-- An indirect-interface record used in permutation witnesses. -/
def c7rec : CallStat :=
  { Pkg := "q", Pos := "b.go:2:2", Caller := "h", Direct := false, Interface := true,
    Weight := 7, Hottest := "m", HottestWeight := 6,
    Devirtualized := "m", DevirtualizedWeight := 5 }

/-- The byte test `len(pos) >= 1 && pos[0] == '/'` of src/main.go
line 78 ('/' is ASCII, so testing the first byte is testing the first
character). -/
def strIsAbs (s : String) : Bool :=
  match s.toList with
  | c :: _ => c == '/'
  | [] => false

/-- One step of the lexical component processing of Go's
`filepath.Clean` (Unix rules): the stack `st` holds the output
components emitted so far, most recent first.  Empty and `"."`
components are dropped; `".."` pops the previous component, except
that at the root it is dropped and below an unmatched `".."` (possible
only for relative paths) it is kept. -/
def cleanStep (rooted : Bool) (st : List String) (c : String) : List String :=
  if c = "" ∨ c = "." then st
  else if c = ".." then
    match st with
    | top :: rest => if top = ".." then c :: top :: rest else rest
    | [] => if rooted then [] else [".."]
  else c :: st

/-- Split a character list on '/' — the component decomposition used
by `filepath.Clean`. -/
def splitSlash : List Char → List (List Char)
  | [] => [[]]
  | c :: rest =>
    if c = '/' then [] :: splitSlash rest
    else
      match splitSlash rest with
      | h :: t => (c :: h) :: t
      | [] => [[c]]

/-- Go `path/filepath.Clean` for Unix paths, modelled by splitting on
'/' and processing the components lexically. -/
def clean (path : String) : String :=
  if path = "" then "."
  else
    let rooted := strIsAbs path
    let comps := (splitSlash path.toList).map String.mk
    let st := comps.foldl (cleanStep rooted) []
    if rooted then "/" ++ String.intercalate "/" st.reverse
    else if st = [] then "." else String.intercalate "/" st.reverse

/-- Go `filepath.Join` on two elements: the non-empty elements joined
with '/' and cleaned; all elements empty yields the empty string. -/
def filepathJoin (a b : String) : String :=
  if a = "" ∧ b = "" then ""
  else if a = "" then clean b
  else if b = "" then clean a
  else clean (a ++ "/" ++ b)

/-- Mirrors `normalizePos` (src/main.go lines 77-82), with the
startup-captured working directory `cwd` made an explicit parameter. -/
def normalizePos (cwd pos : String) : String :=
  if strIsAbs pos then pos else filepathJoin cwd pos

/-- The Go regexp whitespace class `\s = [\t\n\f\r ]` (so `\S` is its
complement). -/
def isSpaceGo (c : Char) : Bool :=
  c == ' ' || c == '\t' || c == '\n' || c == '\x0c' || c == '\r'

def inlinedCallLit : List Char := ": inlining call to ".toList

/-- Backtracking for the greedy `\S+` group of
`^(\S+): inlining call to (.*)$`: group-1 lengths are tried from `k`
down to 1, and the first (longest) split followed by the literal
wins. -/
def tryMatchAt (cs : List Char) : Nat → Option (String × String)
  | 0 => none
  | k + 1 =>
    let rest := cs.drop (k + 1)
    if inlinedCallLit.isPrefixOf rest then
      some (String.mk (cs.take (k + 1)), String.mk (rest.drop inlinedCallLit.length))
    else tryMatchAt cs k

/-- `inlinedCallRe.FindStringSubmatch` (src/main.go lines 40 and
92-96) for the anchored pattern `^(\S+): inlining call to (.*)$`:
group 1 is the longest non-empty run of non-whitespace characters at
the start of the line that is immediately followed by the literal
`": inlining call to "`, and group 2 is the rest of the line. -/
def matchInlined (line : String) : Option (String × String) :=
  let cs := line.toList
  tryMatchAt cs (cs.takeWhile (fun c => !isSpaceGo c)).length

/-- A JSON value, as produced by the `encoding/json` syntax parser.
Numbers are modelled as integers: every numeric field of the pgodebug
log is an `int64`, and a fractional number would fail Go's decode into
an `int64` field. -/
inductive Json where
  | null
  | bool (b : Bool)
  | num (n : Int)
  | str (s : String)
  | arr (elems : List Json)
  | obj (fields : List (String × Json))

/-- ASCII-style lowering of a string, character by character (used for
`encoding/json`'s case-insensitive field-name fallback match). -/
def lowerStr (s : String) : String := String.mk (s.toList.map Char.toLower)

/-- Go's match of a JSON object key against a struct field name:
exact, or falling back to a case-insensitive comparison (no two
`CallStat` field names differ only by case, so the fold comparison
subsumes both). -/
def eqFold (a b : String) : Bool := lowerStr a == lowerStr b

/-- Decode a JSON value into a string field (a JSON `null` keeps the
field's current value; any other non-string value is a type
mismatch). -/
def decodeStr (v : Json) (cur : String) : Option String :=
  match v with | .str x => some x | .null => some cur | _ => none

/-- Decode a JSON value into a boolean field. -/
def decodeBool (v : Json) (cur : Bool) : Option Bool :=
  match v with | .bool x => some x | .null => some cur | _ => none

/-- Decode a JSON value into an integer field. -/
def decodeNum (v : Json) (cur : Int) : Option Int :=
  match v with | .num x => some x | .null => some cur | _ => none

/-- Decode one JSON object member into the `CallStat` field whose name
matches the key.  Unknown keys are ignored, a JSON `null` leaves the
field unchanged, and a type mismatch makes `encoding/json` report an
error, so `readStats` drops the whole record. -/
def setField (s : CallStat) (k : String) (v : Json) : Option CallStat :=
  if eqFold k "Pkg" then (decodeStr v s.Pkg).map (fun x => { s with Pkg := x })
  else if eqFold k "Pos" then (decodeStr v s.Pos).map (fun x => { s with Pos := x })
  else if eqFold k "Caller" then (decodeStr v s.Caller).map (fun x => { s with Caller := x })
  else if eqFold k "Direct" then (decodeBool v s.Direct).map (fun x => { s with Direct := x })
  else if eqFold k "Interface" then (decodeBool v s.Interface).map (fun x => { s with Interface := x })
  else if eqFold k "Weight" then (decodeNum v s.Weight).map (fun x => { s with Weight := x })
  else if eqFold k "Hottest" then (decodeStr v s.Hottest).map (fun x => { s with Hottest := x })
  else if eqFold k "HottestWeight" then (decodeNum v s.HottestWeight).map (fun x => { s with HottestWeight := x })
  else if eqFold k "Devirtualized" then (decodeStr v s.Devirtualized).map (fun x => { s with Devirtualized := x })
  else if eqFold k "DevirtualizedWeight" then (decodeNum v s.DevirtualizedWeight).map (fun x => { s with DevirtualizedWeight := x })
  else some s

/-- `json.Unmarshal` of one line into a `CallStat` (src/main.go
lines 98-102): only a JSON object (or `null`) decodes into the struct;
object members are processed in order, starting from the zero value. -/
def unmarshalCallStat : Json → Option CallStat
  | .null => some CallStat.zero
  | .obj fields => fields.foldlM (fun acc kv => setField acc kv.1 kv.2) CallStat.zero
  | _ => none

/-- One input line: its raw text (matched against the inlining
regexp), together with the result of the `encoding/json` syntax parse
of that same text (`none` when the text is not one valid JSON
value). -/
structure LogLine where
  text : String
  json : Option Json

/-- An input-stream read fault (`scanner.Err()`), abstracted to its
message. -/
abbrev IOErr := String

/-- The body of the scan loop of `readStats` (src/main.go
lines 89-104): the annotation-pattern match and the record decode are
attempted independently on every line; annotation positions are
normalized before being used as map keys. -/
def processLine (cwd : String) (st : List CallStat × (String → List String))
    (l : LogLine) : List CallStat × (String → List String) :=
  let inl :=
    match matchInlined l.text with
    | some (p, symb) =>
      let np := normalizePos cwd p
      fun q => if q = np then st.2 q ++ [symb] else st.2 q
    | none => st.2
  let stats :=
    match l.json.bind unmarshalCallStat with
    | some stat => st.1 ++ [stat]
    | none => st.1
  (stats, inl)

/-- Mirrors `readStats` (src/main.go lines 84-110): consume the lines
the scanner produced, then surface a stream read fault, if any, as a
hard failure that returns neither the record list nor the annotation
map. -/
def readStats (cwd : String) (lines : List LogLine) (fault : Option IOErr) :
    Except IOErr (List CallStat × (String → List String)) :=
  let acc := lines.foldl (processLine cwd) ([], fun _ => [])
  match fault with
  | some e => .error e
  | none => .ok acc

/-- The comparator passed to `sort.Slice` (src/main.go lines 189-197),
transcribed branch by branch. -/
def statLess (a b : CallStat) : Bool :=
  if a.HottestWeight ≠ b.HottestWeight then decide (a.HottestWeight < b.HottestWeight)
  else if a.Pkg ≠ b.Pkg then decide (a.Pkg < b.Pkg)
  else decide (a.Pos < b.Pos)

def insertLe {α : Type} (le : α → α → Bool) (x : α) : List α → List α
  | [] => [x]
  | y :: ys => if le x y then x :: y :: ys else y :: insertLe le x ys

/-- A stable insertion sort: `x` ends up before `y` exactly when
`le x y` holds for the first `y` it is compared against.  With
`le a b = !statLess b a` this produces a list ascending under
`statLess`, which is all `sort.Slice` (unstable, otherwise
unspecified on ties) guarantees. -/
def sortBy {α : Type} (le : α → α → Bool) : List α → List α
  | [] => []
  | x :: xs => insertLe le x (sortBy le xs)

def statLe (a b : CallStat) : Bool := !statLess b a

/-- The ascending sort of the record slice (src/main.go line 189). -/
def sortStats (stats : List CallStat) : List CallStat := sortBy statLe stats

/-- `topCount`, src/main.go line 187. -/
def topCount : Nat := 100

/-- The top-K walk (src/main.go lines 198-225) over the reversed
ascending order: the loop stops once `k` records have been selected,
and a direct record is skipped without consuming a slot. -/
def selectTop (k : Nat) : List CallStat → List CallStat
  | [] => []
  | s :: rest =>
    if k = 0 then []
    else if s.Direct then selectTop k rest
    else s :: selectTop (k - 1) rest

/-- One line of the top-K listing: the record and the annotation lines
printed beneath it — `inlined[s.Pos]` at src/main.go line 218, keyed
by the record's raw position string. -/
structure TopEntry where
  stat : CallStat
  annotations : List String
deriving DecidableEq, Repr

/-- The top-K listing printed by `run`. -/
def topListing (stats : List CallStat) (inl : String → List String) : List TopEntry :=
  (selectTop topCount (sortStats stats).reverse).map (fun s => ⟨s, inl s.Pos⟩)

/-- The data of the emitted report.  The percentage lines are
floating-point renderings of these integer sums; the renderings
themselves are not modelled. -/
structure Report where
  count : sum
  weight : sum
  hottestWeight : sum
  devirtualizedCount : sum
  devirtualizedWeight : sum
  top : List TopEntry
  topWeight : Int
  topHottestWeight : Int

/-- Mirrors `run` (src/main.go lines 126-230): on a read fault the
error propagates and no part of the report is produced; otherwise the
aggregation pass runs, the records are ranked, and the report data is
assembled. -/
def run (cwd : String) (lines : List LogLine) (fault : Option IOErr) :
    Except IOErr Report :=
  match readStats cwd lines fault with
  | .error e => .error e
  | .ok (stats, inl) =>
    let agg := aggregate stats
    let top := topListing stats inl
    .ok { count := agg.count, weight := agg.weight,
          hottestWeight := agg.hottestWeight,
          devirtualizedCount := agg.devirtualizedCount,
          devirtualizedWeight := agg.devirtualizedWeight,
          top := top,
          topWeight := (top.map (fun e => e.stat.Weight)).foldl (· + ·) 0,
          topHottestWeight := (top.map (fun e => e.stat.HottestWeight)).foldl (· + ·) 0 }

/-- The wire field names of `CallStat` recognized by the record
decoder. -/
def fieldNames : List String :=
  ["Pkg", "Pos", "Caller", "Direct", "Interface", "Weight",
   "Hottest", "HottestWeight", "Devirtualized", "DevirtualizedWeight"]

/-- Whether a JSON object key matches some `CallStat` field name. -/
def recognizedKey (k : String) : Bool := fieldNames.any (fun f => eqFold k f)

/-- The spec-side 3-key composite strict order: hottest weight first,
then package, then position, the string comparisons lexicographic
(spec wording; compared against the code's `statLess`). -/
def lexLess (a b : CallStat) : Prop :=
  a.HottestWeight < b.HottestWeight ∨
    (a.HottestWeight = b.HottestWeight ∧
      (a.Pkg < b.Pkg ∨ (a.Pkg = b.Pkg ∧ a.Pos < b.Pos)))

instance (a b : CallStat) : Decidable (lexLess a b) := by
  unfold lexLess; infer_instance

/-- Two records tied on hottest weight, packages `"pa" < "pb"`. -/
def c3a : CallStat :=
  { Pkg := "pa", Pos := "q.go:1:1", Caller := "f", Direct := false, Interface := false,
    Weight := 8, Hottest := "x", HottestWeight := 5,
    Devirtualized := "", DevirtualizedWeight := 0 }

def c3b : CallStat := { c3a with Pkg := "pb" }

/-- An indirect-interface record for the top-K witnesses. -/
def c4rec : CallStat :=
  { Pkg := "w", Pos := "c.go:1:1", Caller := "f", Direct := false, Interface := true,
    Weight := 3, Hottest := "h", HottestWeight := 2,
    Devirtualized := "", DevirtualizedWeight := 0 }

def c2cwd : String := "/root/src"

/-- The decoded record of `c2json`: an indirect function call whose
`Pos` is the relative string `pkg/a.go:3:7`. -/
def c2stat : CallStat :=
  { Pkg := "p", Pos := "pkg/a.go:3:7", Caller := "f", Direct := false, Interface := false,
    Weight := 9, Hottest := "g", HottestWeight := 5,
    Devirtualized := "", DevirtualizedWeight := 0 }

def c2json : Json :=
  .obj [("Pkg", .str "p"), ("Pos", .str "pkg/a.go:3:7"), ("Caller", .str "f"),
        ("Direct", .bool false), ("Interface", .bool false), ("Weight", .num 9),
        ("Hottest", .str "g"), ("HottestWeight", .num 5),
        ("Devirtualized", .str ""), ("DevirtualizedWeight", .num 0)]

/-- An annotation line and a record line naming the same source
location `pkg/a.go:3:7` (the annotation side relative, as `cmd/go`
emits it). -/
def c2lines : List LogLine :=
  [⟨"pkg/a.go:3:7: inlining call to foo", none⟩, ⟨"", some c2json⟩]

def c2res : List CallStat × (String → List String) :=
  c2lines.foldl (processLine c2cwd) ([], fun _ => [])

theorem aggStep_eq_add (a : Agg) (s : CallStat) : aggStep a s = Agg.add a (contrib s) := by
  obtain ⟨⟨c1, c2, c3⟩, ⟨w1, w2, w3⟩, ⟨h1, h2, h3⟩, ⟨d1, d2, d3⟩, ⟨e1, e2, e3⟩⟩ := a
  simp only [aggStep, contrib, Agg.add, sum.add, sum.zero]
  split_ifs <;> simp_all

theorem Agg.add_assoc (x y z : Agg) : Agg.add (Agg.add x y) z = Agg.add x (Agg.add y z) := by
  obtain ⟨⟨_, _, _⟩, ⟨_, _, _⟩, ⟨_, _, _⟩, ⟨_, _, _⟩, ⟨_, _, _⟩⟩ := x
  obtain ⟨⟨_, _, _⟩, ⟨_, _, _⟩, ⟨_, _, _⟩, ⟨_, _, _⟩, ⟨_, _, _⟩⟩ := y
  obtain ⟨⟨_, _, _⟩, ⟨_, _, _⟩, ⟨_, _, _⟩, ⟨_, _, _⟩, ⟨_, _, _⟩⟩ := z
  simp only [Agg.add, sum.add, Agg.mk.injEq, sum.mk.injEq]
  omega

theorem Agg.add_comm (x y : Agg) : Agg.add x y = Agg.add y x := by
  obtain ⟨⟨_, _, _⟩, ⟨_, _, _⟩, ⟨_, _, _⟩, ⟨_, _, _⟩, ⟨_, _, _⟩⟩ := x
  obtain ⟨⟨_, _, _⟩, ⟨_, _, _⟩, ⟨_, _, _⟩, ⟨_, _, _⟩, ⟨_, _, _⟩⟩ := y
  simp only [Agg.add, sum.add, Agg.mk.injEq, sum.mk.injEq]
  omega

theorem Agg.zero_add (x : Agg) : Agg.add Agg.zero x = x := by
  obtain ⟨⟨_, _, _⟩, ⟨_, _, _⟩, ⟨_, _, _⟩, ⟨_, _, _⟩, ⟨_, _, _⟩⟩ := x
  simp only [Agg.zero, Agg.add, sum.add, sum.zero, Agg.mk.injEq, sum.mk.injEq]
  omega

theorem foldl_aggStep_eq (l : List CallStat) :
    ∀ a : Agg, l.foldl aggStep a = Agg.add a (aggSum l) := by
  induction l with
  | nil =>
    intro a
    obtain ⟨⟨_, _, _⟩, ⟨_, _, _⟩, ⟨_, _, _⟩, ⟨_, _, _⟩, ⟨_, _, _⟩⟩ := a
    simp [aggSum, Agg.add, sum.add, Agg.zero, sum.zero]
  | cons s t ih =>
    intro a
    have : aggSum (s :: t) = Agg.add (contrib s) (aggSum t) := by
      simp [aggSum]
    rw [List.foldl_cons, ih, aggStep_eq_add, this, Agg.add_assoc]

theorem aggregate_eq_aggSum (l : List CallStat) : aggregate l = aggSum l := by
  rw [aggregate, foldl_aggStep_eq, Agg.zero_add]

theorem aggSum_cons (s : CallStat) (t : List CallStat) :
    aggSum (s :: t) = Agg.add (contrib s) (aggSum t) := by
  simp [aggSum]

/-- C1 counterexample: aggregating a single direct record with
`Weight = 10` and `HottestWeight = 3` leaves the direct hottest-weight
sum at 10, not at the record's `HottestWeight` of 3 — so a direct
record does not contribute its `hottestCalleeWeight` to the direct
hottest-weight sum, contradicting the claim as stated. -/
theorem C1_counterexample :
    (aggregate [c1rec]).hottestWeight.direct = 10 ∧
    c1rec.HottestWeight = 3 ∧ (10 : Int) ≠ 3 := by
  refine ⟨by decide, by decide, by decide⟩

/-- C1 (amended): the aggregation pass increments the hottest-weight
sum of the record's category, leaving the other categories' sums
unchanged; an indirect record (function-value or interface) contributes
its `HottestWeight`, but a direct record contributes its total `Weight`
(src/main.go line 144 adds `s.Weight`, not `s.HottestWeight`). -/
theorem C1_hottest_weight_amended : ∀ (a : Agg) (s : CallStat),
    (s.Direct = true →
      (aggStep a s).hottestWeight.direct = a.hottestWeight.direct + s.Weight ∧
      (aggStep a s).hottestWeight.indirectFunc = a.hottestWeight.indirectFunc ∧
      (aggStep a s).hottestWeight.indirectMethod = a.hottestWeight.indirectMethod) ∧
    (s.Direct = false → s.Interface = true →
      (aggStep a s).hottestWeight.indirectMethod
        = a.hottestWeight.indirectMethod + s.HottestWeight ∧
      (aggStep a s).hottestWeight.direct = a.hottestWeight.direct ∧
      (aggStep a s).hottestWeight.indirectFunc = a.hottestWeight.indirectFunc) ∧
    (s.Direct = false → s.Interface = false →
      (aggStep a s).hottestWeight.indirectFunc
        = a.hottestWeight.indirectFunc + s.HottestWeight ∧
      (aggStep a s).hottestWeight.direct = a.hottestWeight.direct ∧
      (aggStep a s).hottestWeight.indirectMethod = a.hottestWeight.indirectMethod) := by
  intro a s
  refine ⟨fun h => ?_, fun h h2 => ?_, fun h h2 => ?_⟩ <;>
    simp_all [aggStep_eq_add, Agg.add, sum.add, contrib]

/-- Closed witness for `C1_hottest_weight_amended` at a concrete direct
record. -/
theorem C1_hottest_weight_amended_witness :
    (aggStep Agg.zero c1rec).hottestWeight.direct
      = Agg.zero.hottestWeight.direct + c1rec.Weight ∧
    (aggStep Agg.zero c1rec).hottestWeight.indirectFunc
      = Agg.zero.hottestWeight.indirectFunc ∧
    (aggStep Agg.zero c1rec).hottestWeight.indirectMethod
      = Agg.zero.hottestWeight.indirectMethod :=
  (C1_hottest_weight_amended Agg.zero c1rec).1 rfl

theorem aggSum_bounds (stats : List CallStat) :
    (aggSum stats).devirtualizedCount.indirectFunc ≤ (aggSum stats).count.indirectFunc ∧
    (aggSum stats).devirtualizedCount.indirectMethod ≤ (aggSum stats).count.indirectMethod ∧
    (aggSum stats).devirtualizedCount.direct = 0 ∧
    (aggSum stats).devirtualizedWeight.direct = 0 := by
  induction stats with
  | nil => simp [aggSum, Agg.zero, sum.zero]
  | cons s t ih =>
    obtain ⟨ih1, ih2, ih3, ih4⟩ := ih
    rw [aggSum_cons]
    simp only [Agg.add, sum.add, contrib]
    split_ifs <;> simp [sum.zero] <;> omega

/-- C5: after aggregating any record list, each indirect category's
devirtualized-count sum is at most that category's count sum, and the
direct category's devirtualized-count and devirtualized-weight sums are
both zero. -/
theorem C5_devirt_invariant : ∀ stats : List CallStat,
    (aggregate stats).devirtualizedCount.indirectFunc
      ≤ (aggregate stats).count.indirectFunc ∧
    (aggregate stats).devirtualizedCount.indirectMethod
      ≤ (aggregate stats).count.indirectMethod ∧
    (aggregate stats).devirtualizedCount.direct = 0 ∧
    (aggregate stats).devirtualizedWeight.direct = 0 := by
  intro stats
  rw [aggregate_eq_aggSum]
  exact aggSum_bounds stats

theorem aggSum_perm {l₁ l₂ : List CallStat} (p : l₁.Perm l₂) :
    aggSum l₁ = aggSum l₂ := by
  induction p with
  | nil => rfl
  | cons x _ ih => rw [aggSum_cons, aggSum_cons, ih]
  | swap x y t =>
    rw [aggSum_cons, aggSum_cons, aggSum_cons, aggSum_cons,
      ← Agg.add_assoc, Agg.add_comm (contrib y) (contrib x), Agg.add_assoc]
  | trans _ _ ih₁ ih₂ => exact ih₁.trans ih₂

/-- C7: aggregation is order-independent — any permutation of the
record list produces exactly the same five category sums. -/
theorem C7_aggregate_perm : ∀ l₁ l₂ : List CallStat,
    l₁.Perm l₂ → aggregate l₁ = aggregate l₂ := by
  intro l₁ l₂ p
  rw [aggregate_eq_aggSum, aggregate_eq_aggSum]
  exact aggSum_perm p

/-- Closed witness for `C7_aggregate_perm` on a concrete two-element
swap. -/
theorem C7_aggregate_perm_witness :
    aggregate [c1rec, c7rec] = aggregate [c7rec, c1rec] :=
  C7_aggregate_perm [c1rec, c7rec] [c7rec, c1rec] (List.Perm.swap c7rec c1rec [])

theorem strIsAbs_append (a b : String) (h : strIsAbs a = true) :
    strIsAbs (a ++ b) = true := by
  obtain ⟨la⟩ := a
  obtain ⟨lb⟩ := b
  cases la with
  | nil => exact absurd h (by decide)
  | cons c cs => exact h

theorem strIsAbs_clean (s : String) (h : strIsAbs s = true) :
    strIsAbs (clean s) = true := by
  have hne : s ≠ "" := by rintro rfl; exact absurd h (by decide)
  simp only [clean]
  rw [if_neg hne]
  simp only [h, if_true]
  exact strIsAbs_append "/" _ (by decide)

theorem strIsAbs_join (cwd p : String) (h : strIsAbs cwd = true) :
    strIsAbs (filepathJoin cwd p) = true := by
  have hcne : cwd ≠ "" := by rintro rfl; exact absurd h (by decide)
  by_cases hp : p = ""
  · subst hp
    have hj : filepathJoin cwd "" = clean cwd := by
      simp [filepathJoin, hcne]
    rw [hj]
    exact strIsAbs_clean cwd h
  · have hj : filepathJoin cwd p = clean (cwd ++ "/" ++ p) := by
      simp [filepathJoin, hcne, hp]
    rw [hj]
    exact strIsAbs_clean _ (strIsAbs_append _ _ (strIsAbs_append _ _ h))

theorem normalizePos_of_abs (cwd q : String) (h : strIsAbs q = true) :
    normalizePos cwd q = q := by
  simp [normalizePos, h]

/-- C6: position normalization is idempotent:
`normalizePos cwd (normalizePos cwd p) = normalizePos cwd p` for every
position string `p`, given that the working directory captured at
startup is absolute (on the target platform `os.Getwd` always returns
a '/'-rooted path). -/
theorem C6_normalizePos_idem : ∀ cwd p : String, strIsAbs cwd = true →
    normalizePos cwd (normalizePos cwd p) = normalizePos cwd p := by
  intro cwd p h
  by_cases hp : strIsAbs p = true
  · rw [normalizePos_of_abs cwd p hp, normalizePos_of_abs cwd p hp]
  · have habs : strIsAbs (normalizePos cwd p) = true := by
      simp only [normalizePos, hp, if_false, Bool.false_eq_true]
      exact strIsAbs_join cwd p h
    exact normalizePos_of_abs cwd _ habs

/-- Closed witness for `C6_normalizePos_idem` on a concrete relative
position and absolute working directory. -/
theorem C6_normalizePos_idem_witness :
    strIsAbs "/home/user" = true ∧
    normalizePos "/home/user" (normalizePos "/home/user" "main.go:10:2")
      = normalizePos "/home/user" "main.go:10:2" :=
  ⟨by decide, C6_normalizePos_idem "/home/user" "main.go:10:2" (by decide)⟩

/-- C9: a stream read fault is fatal: `readStats` propagates the error
and returns neither a record list nor an annotation map, and `run`
emits no part of the report (atomicity: an error output carries no
report data). -/
theorem C9_fault_is_fatal : ∀ (cwd : String) (lines : List LogLine) (e : IOErr),
    readStats cwd lines (some e) = .error e ∧ run cwd lines (some e) = .error e := by
  intro cwd lines e
  exact ⟨rfl, rfl⟩

theorem setField_unknown (s : CallStat) (k : String) (v : Json)
    (h : recognizedKey k = false) : setField s k v = some s := by
  simp only [recognizedKey, fieldNames, List.any_cons, List.any_nil,
    Bool.or_eq_false_iff] at h
  obtain ⟨h1, h2, h3, h4, h5, h6, h7, h8, h9, h10, -⟩ := h
  simp [setField, h1, h2, h3, h4, h5, h6, h7, h8, h9, h10]

theorem foldl_setField_unknown : ∀ (fields : List (String × Json)) (s : CallStat),
    (∀ kv ∈ fields, recognizedKey kv.1 = false) →
    fields.foldlM (fun acc kv => setField acc kv.1 kv.2) s = some s := by
  intro fields
  induction fields with
  | nil => intro s _; rfl
  | cons kv t ih =>
    intro s h
    rw [List.foldlM_cons, setField_unknown s kv.1 kv.2 (h kv (by simp))]
    show t.foldlM (fun acc kv => setField acc kv.1 kv.2) s = some s
    exact ih s (fun kv hkv => h kv (by simp [hkv]))

theorem aggStep_zero_stat (a : Agg) :
    aggStep a CallStat.zero
      = { a with count := { a.count with indirectFunc := a.count.indirectFunc + 1 } } := by
  obtain ⟨⟨c1, c2, c3⟩, ⟨w1, w2, w3⟩, ⟨h1, h2, h3⟩, ⟨d1, d2, d3⟩, ⟨e1, e2, e3⟩⟩ := a
  simp [aggStep, CallStat.zero]

/-- C10: a syntactically valid JSON object none of whose keys matches
a recognized record field name is not discarded: it decodes into the
zero-valued `CallStat`, is appended to the record list, and the
aggregator counts it as an indirect function call of weight 0 — only
`count.indirectFunc` moves, every other accumulator (including all
weight sums) is unchanged. -/
theorem C10_unknown_fields_object :
    ∀ (fields : List (String × Json)) (cwd t : String) (a : Agg),
    (∀ kv ∈ fields, recognizedKey kv.1 = false) →
    unmarshalCallStat (.obj fields) = some CallStat.zero ∧
    (readStats cwd [⟨t, some (.obj fields)⟩] none).map Prod.fst
      = .ok [CallStat.zero] ∧
    aggStep a CallStat.zero
      = { a with count := { a.count with indirectFunc := a.count.indirectFunc + 1 } } := by
  intro fields cwd t a h
  have hu : unmarshalCallStat (.obj fields) = some CallStat.zero :=
    foldl_setField_unknown fields CallStat.zero h
  refine ⟨hu, ?_, aggStep_zero_stat a⟩
  simp [readStats, processLine, hu, Except.map]

/-- Closed witness for `C10_unknown_fields_object` on a one-member
object with an unrecognized key. -/
theorem C10_unknown_fields_object_witness :
    unmarshalCallStat (.obj [("foo", .str "bar")]) = some CallStat.zero ∧
    (readStats "/w" [⟨"x", some (.obj [("foo", .str "bar")])⟩] none).map Prod.fst
      = .ok [CallStat.zero] ∧
    aggStep Agg.zero CallStat.zero
      = { Agg.zero with
          count := { Agg.zero.count with indirectFunc := Agg.zero.count.indirectFunc + 1 } } :=
  C10_unknown_fields_object [("foo", .str "bar")] "/w" "x" Agg.zero (by decide)

theorem statLess_iff_lexLess (s t : CallStat) : statLess s t = true ↔ lexLess s t := by
  unfold statLess lexLess
  by_cases h1 : s.HottestWeight = t.HottestWeight
  · by_cases h2 : s.Pkg = t.Pkg
    · simp [h1, h2, lt_irrefl]
    · simp [h1, h2, lt_irrefl]
  · simp [h1]

/-- C3: the `sort.Slice` comparator is exactly the ascending 3-key
composite order (hottest weight, then package, then position); with
equal hottest weights the lexicographically smaller package sorts
strictly earlier in ascending order (and the top-K walk consumes the
sorted list from the end, so it prints later), and equal packages fall
through to the position comparison.  Consequently the sort that
determines the top-K selection can equivalently be run with the spec's
composite comparator. -/
theorem C3_ranking_order : ∀ s t : CallStat,
    (statLess s t = true ↔ lexLess s t) ∧
    (s.HottestWeight = t.HottestWeight → s.Pkg < t.Pkg →
      statLess s t = true ∧ statLess t s = false) ∧
    (s.HottestWeight = t.HottestWeight → s.Pkg = t.Pkg →
      (statLess s t = true ↔ s.Pos < t.Pos)) ∧
    (∀ l : List CallStat, sortStats l = sortBy (fun a b => !decide (lexLess b a)) l) := by
  intro s t
  refine ⟨statLess_iff_lexLess s t, fun h1 h2 => ⟨?_, ?_⟩, fun h1 h2 => ?_, fun l => ?_⟩
  · exact (statLess_iff_lexLess s t).mpr (Or.inr ⟨h1, Or.inl h2⟩)
  · by_contra hc
    rw [Bool.not_eq_false] at hc
    rcases (statLess_iff_lexLess t s).mp hc with h | ⟨-, h | ⟨he, -⟩⟩
    · exact absurd h (by rw [h1]; exact lt_irrefl _)
    · exact absurd h (lt_asymm h2)
    · exact absurd he.symm (ne_of_lt h2)
  · rw [statLess_iff_lexLess]
    unfold lexLess
    simp [h1, h2, lt_irrefl]
  · have hfun : statLe = fun a b : CallStat => !decide (lexLess b a) := by
      funext a b
      unfold statLe
      congr 1
      by_cases h : lexLess b a
      · rw [(statLess_iff_lexLess b a).mpr h, decide_eq_true h]
      · have hne : statLess b a = false := by
          cases hb : statLess b a
          · rfl
          · exact absurd ((statLess_iff_lexLess b a).mp hb) h
        rw [hne, decide_eq_false h]
    rw [sortStats, hfun]

/-- Closed witness for `C3_ranking_order`: tied hottest weights, the
smaller package sorts strictly earlier. -/
theorem C3_ranking_order_witness :
    statLess c3a c3b = true ∧ statLess c3b c3a = false :=
  (C3_ranking_order c3a c3b).2.1 rfl (String.lt_iff_toList_lt.mpr (by decide))

theorem selectTop_eq_filter_take : ∀ (k : Nat) (l : List CallStat),
    selectTop k l = (l.filter (fun s => !s.Direct)).take k := by
  intro k l
  induction l generalizing k with
  | nil => simp [selectTop]
  | cons s rest ih =>
    cases k with
    | zero => simp [selectTop]
    | succ n =>
      by_cases hd : s.Direct
      · simp [selectTop, hd, ih]
      · simp [selectTop, hd, ih]

/-- C4: no record of the top-K listing is a direct call, and a skipped
direct record consumes no rank slot: the printed records are exactly
the first `topCount` non-direct records of the descending rank
order. -/
theorem C4_no_direct_in_top : ∀ (stats : List CallStat) (inl : String → List String)
    (e : TopEntry), e ∈ topListing stats inl →
    e.stat.Direct = false ∧
    (topListing stats inl).map TopEntry.stat
      = ((sortStats stats).reverse.filter (fun s => !s.Direct)).take topCount := by
  intro stats inl e he
  constructor
  · rw [topListing] at he
    obtain ⟨s, hs, rfl⟩ := List.mem_map.mp he
    rw [selectTop_eq_filter_take] at hs
    have hs2 := List.mem_of_mem_take hs
    simpa using (List.mem_filter.mp hs2).2
  · rw [topListing, List.map_map]
    have hid : (TopEntry.stat ∘ fun s => (⟨s, inl s.Pos⟩ : TopEntry)) = id := rfl
    rw [hid, List.map_id, selectTop_eq_filter_take]

/-- Closed witness for `C4_no_direct_in_top` on a one-record listing. -/
theorem C4_no_direct_in_top_witness :
    (⟨c4rec, []⟩ : TopEntry).stat.Direct = false ∧
    (topListing [c4rec] (fun _ => [])).map TopEntry.stat
      = ((sortStats [c4rec]).reverse.filter (fun s => !s.Direct)).take topCount :=
  C4_no_direct_in_top [c4rec] (fun _ => []) ⟨c4rec, []⟩ (by decide)

/-- C2 counterexample: with working directory `/root/src`, an
annotation at relative position `pkg/a.go:3:7` and a record whose
`Pos` is that same relative string, the listing prints no annotation
beneath the record — the lookup at src/main.go line 218 uses the raw
`Pos` — while the annotation is recorded under the normalized
(absolute) position.  So the printed annotations are not those
recorded under the normalized form of the record's position, and a
relative-position record is not joined with an annotation naming the
same location. -/
theorem C2_counterexample :
    readStats c2cwd c2lines none = .ok c2res ∧
    (topListing c2res.1 c2res.2).map TopEntry.annotations = [[]] ∧
    c2res.2 (normalizePos c2cwd c2stat.Pos) = ["foo"] ∧
    ([] : List String) ≠ ["foo"] :=
  ⟨rfl, by decide, by decide, by decide⟩

theorem inl_foldl_char : ∀ (cwd : String) (lines : List LogLine)
    (st : List CallStat × (String → List String)) (p : String),
    (lines.foldl (processLine cwd) st).2 p
      = st.2 p ++ lines.filterMap (fun l =>
          match matchInlined l.text with
          | some mr => if normalizePos cwd mr.1 = p then some mr.2 else none
          | none => none) := by
  intro cwd lines
  induction lines with
  | nil => intro st p; simp
  | cons l t ih =>
    intro st p
    rw [List.foldl_cons, ih, List.filterMap_cons]
    cases hm : matchInlined l.text with
    | none => simp [processLine, hm]
    | some mr =>
      obtain ⟨q, symb⟩ := mr
      simp only [processLine, hm]
      by_cases hq : normalizePos cwd q = p
      · rw [if_pos hq, if_pos hq.symm]
        simp
      · rw [if_neg hq, if_neg (fun he => hq he.symm)]

/-- C2 (amended): the annotation lines printed beneath a top-K record
are exactly those recorded under the record's RAW position string —
not under its normalized form.  Annotations themselves are recorded
under the normalized form of the captured position, in original append
order, so a record joins with an annotation only when the record's raw
position equals the annotation's normalized position; in particular a
record whose position is relative fails to join with an annotation
naming the same location. -/
theorem C2_annotations_amended :
    ∀ (cwd : String) (lines : List LogLine) (fault : Option IOErr)
      (res : List CallStat × (String → List String)) (e : TopEntry) (p : String),
    readStats cwd lines fault = .ok res →
    e ∈ topListing res.1 res.2 →
    (e.annotations = res.2 e.stat.Pos ∧
     res.2 p = lines.filterMap (fun l =>
        match matchInlined l.text with
        | some mr => if normalizePos cwd mr.1 = p then some mr.2 else none
        | none => none)) := by
  intro cwd lines fault res e p hok he
  have hres : res = lines.foldl (processLine cwd) ([], fun _ => []) := by
    cases fault with
    | some er => simp [readStats] at hok
    | none =>
      have h2 : Except.ok (ε := IOErr) (lines.foldl (processLine cwd) ([], fun _ => []))
          = .ok res := hok
      exact (Except.ok.inj h2).symm
  constructor
  · rw [topListing] at he
    obtain ⟨s, hs, rfl⟩ := List.mem_map.mp he
    rfl
  · rw [hres, inl_foldl_char]
    simp

/-- Closed witness for `C2_annotations_amended` on the concrete input
of the counterexample (the record joins no annotation; the normalized
key holds the symbol). -/
theorem C2_annotations_amended_witness :
    (⟨c2stat, []⟩ : TopEntry).annotations = c2res.2 (⟨c2stat, []⟩ : TopEntry).stat.Pos ∧
    c2res.2 "/root/src/pkg/a.go:3:7" = c2lines.filterMap (fun l =>
        match matchInlined l.text with
        | some mr => if normalizePos c2cwd mr.1 = "/root/src/pkg/a.go:3:7" then some mr.2 else none
        | none => none) :=
  C2_annotations_amended c2cwd c2lines none c2res ⟨c2stat, []⟩ "/root/src/pkg/a.go:3:7"
    rfl (by decide)
